import Mathlib

/-!
Verification of the Megaplexer seven-segment multiplexer firmware
(`src/main.cpp`): a shallow embedding of the digit state store, the I2C
update receiver (`receiveEvent`), the scan driver (`updateDisplay`,
`loop`) and the pin initialisation (`setup`), together with theorems
about the specified behaviour.
-/

namespace Megaplexer

/-- `#define NUM_DIGITS 6` from the config block. -/
def NUM_DIGITS : Nat := 6

/-- `#define IS_COMMON_ANODE true` from the config block. -/
def IS_COMMON_ANODE : Bool := true

/-- `int commonPins[NUM_DIGITS] = {3, 5, 6, 9, 10, 11};` -/
def commonPins : List Nat := [3, 5, 6, 9, 10, 11]

/-- `int segmentPins[8] = {0, 1, 2, 4, 7, 8, 12, 13};` (A..G, DP). -/
def segmentPins : List Nat := [0, 1, 2, 4, 7, 8, 12, 13]

/-- Initial contents of `byte digitStates[6]`: six slots, each `0b01000000`. -/
def digitStates : List Nat :=
  [0b01000000, 0b01000000, 0b01000000, 0b01000000, 0b01000000, 0b01000000]

/-- Reading `digitStates[i]` (the store is always a 6-element list of bytes). -/
def read (store : List Nat) (i : Nat) : Nat := store.getD i 0

/-- One guarded store update from `receiveEvent`:
`if (digitIndex < 6) { digitStates[digitIndex] = segmentStates; }`. -/
def writeDigit (store : List Nat) (digitIndex segmentStates : Nat) : List Nat :=
  if digitIndex < 6 then store.set digitIndex segmentStates else store

/-- The `while (Wire.available() > 1)` loop of `receiveEvent`: as long as at
least two bytes remain, read a digit index and a segment byte and apply the
guarded write; a trailing single byte (or none) ends the loop. -/
def receiveLoop : List Nat → List Nat → List Nat
  | store, digitIndex :: segmentStates :: rest =>
      receiveLoop (writeDigit store digitIndex segmentStates) rest
  | store, _ => store

/-- `void receiveEvent(int numBytes)`: the body never consults `numBytes`;
it drains the available byte stream `wireBuf` two bytes at a time. -/
def receiveEvent (numBytes : Int) (wireBuf : List Nat) (store : List Nat) : List Nat :=
  receiveLoop store wireBuf

/-- The complete two-byte pairs contained in a byte stream, in arrival order. -/
def toPairs : List Nat → List (Nat × Nat)
  | a :: b :: rest => (a, b) :: toPairs rest
  | _ => []

/-! ### Pin-level model of the scan driver -/

/-- Output levels of the digital pins (`true` = HIGH). -/
abbrev PinState := Nat → Bool

/-- `digitalWrite(pin, level)` as a pin-state transformer. -/
def digitalWrite (ps : PinState) (pin : Nat) (level : Bool) : PinState :=
  fun q => if q = pin then level else ps q

/-- Apply a sequence of `digitalWrite` calls in order. -/
def applyWrites (ps : PinState) (ws : List (Nat × Bool)) : PinState :=
  ws.foldl (fun s w => digitalWrite s w.1 w.2) ps

/-- The segment write of `updateDisplay` for one `seg`:
`bool segmentOn = digitStates[digit] & (1 << seg);`
`digitalWrite(segmentPins[seg], IS_COMMON_ANODE ? !segmentOn : segmentOn);` -/
def segWrite (isAnode : Bool) (store : List Nat) (digit seg : Nat) : Nat × Bool :=
  (segmentPins.getD seg 0,
    if isAnode then !(decide (read store digit &&& (1 <<< seg) ≠ 0))
    else decide (read store digit &&& (1 <<< seg) ≠ 0))

/-- The sequence of `digitalWrite` calls performed by `updateDisplay(digit)`:
first all commons to `IS_COMMON_ANODE` (the code's "off" level), then the
addressed common to `!IS_COMMON_ANODE` ("on"), then the 8 segment pins. -/
def updateDisplayWrites (isAnode : Bool) (store : List Nat) (digit : Nat) : List (Nat × Bool) :=
  commonPins.map (fun p => (p, isAnode))
    ++ [(commonPins.getD digit 0, !isAnode)]
    ++ (List.range 8).map (segWrite isAnode store digit)

/-- The writes of one full refresh cycle: the
`for (int digit = 0; digit < NUM_DIGITS; digit++) updateDisplay(digit);`
loop in `loop()`. -/
def cycleWrites (isAnode : Bool) (store : List Nat) : List (Nat × Bool) :=
  (List.range NUM_DIGITS).flatMap (updateDisplayWrites isAnode store)

/-- The `digitalWrite` calls performed by `setup()`: every common pin to
`!IS_COMMON_ANODE` ("Ensure all displays are off"), every segment pin to
`IS_COMMON_ANODE` ("Ensure all segments are off"). -/
def setupWrites (isAnode : Bool) : List (Nat × Bool) :=
  commonPins.map (fun p => (p, !isAnode)) ++ segmentPins.map (fun p => (p, isAnode))

/-- Number of common pins currently driven at the level `updateDisplay`
uses to turn a digit on (`!IS_COMMON_ANODE`). -/
def countCommonActive (isAnode : Bool) (ps : PinState) : Nat :=
  commonPins.countP (fun p => ps p == !isAnode)

/-- All states a write sequence passes through, counted from `ps`, keep at
most one common pin at the activation level: the state after the first `k`
writes is bounded for every `k`. -/
def StatesBounded (isAnode : Bool) (ps : PinState) (ws : List (Nat × Bool)) : Prop :=
  ∀ k, countCommonActive isAnode (applyWrites ps (ws.take k)) ≤ 1

/-! ### Bounds-checked model of the scan driver's array accesses -/

/-- The segment-loop body of `updateDisplay` with every array access
bounds-checked (`none` would mean an out-of-range read). -/
def segWriteChecked (isAnode : Bool) (store : List Nat) (digit seg : Nat) :
    Option (Nat × Bool) := do
  let pat ← store[digit]?
  let pin ← segmentPins[seg]?
  pure (pin, if isAnode then !(decide (pat &&& (1 <<< seg) ≠ 0))
    else decide (pat &&& (1 <<< seg) ≠ 0))

/-- `updateDisplay(digit)` with every access to `commonPins`, `segmentPins`
and `digitStates` bounds-checked. -/
def updateDisplayChecked (isAnode : Bool) (store : List Nat) (digit : Nat) :
    Option (List (Nat × Bool)) := do
  let offs ← (List.range NUM_DIGITS).mapM
    (fun i => (commonPins[i]?).map (fun p => (p, isAnode)))
  let onPin ← commonPins[digit]?
  let segs ← (List.range 8).mapM (segWriteChecked isAnode store digit)
  pure (offs ++ [(onPin, !isAnode)] ++ segs)

/-- One refresh cycle of `loop()` with all scan-driver accesses checked. -/
def cycleChecked (isAnode : Bool) (store : List Nat) : Option (List (Nat × Bool)) := do
  let parts ← (List.range NUM_DIGITS).mapM (updateDisplayChecked isAnode store)
  pure parts.flatten

/-! ### Timing model of `loop()` -/

/-- `2 ^ 32`: modulus of the `unsigned long` arithmetic on `millis()`. -/
def U32 : Nat := 4294967296

/-- The C expression `millis() - lastUpdateTime` on 32-bit unsigned values. -/
def usub32 (a b : Nat) : Nat := (a % U32 + (U32 - b % U32)) % U32

/-- One invocation of `loop()`: when `millis() - lastUpdateTime > 2` the
refresh cycle runs and `lastUpdateTime` is set to `millis()` read after the
cycle (`nowEnd`); otherwise nothing happens. Returns (cycle ran?, new
`lastUpdateTime`). -/
def loopStep (lastUpdateTime nowCheck nowEnd : Nat) : Bool × Nat :=
  if 2 < usub32 nowCheck lastUpdateTime then (true, nowEnd % U32)
  else (false, lastUpdateTime)

/-! ### Theorems -/

/-- Claim C10: the result of `receiveEvent` is independent of its `numBytes`
argument — two invocations on the same available byte stream and the same
store contents produce identical store contents whatever `numBytes` each
receives (the parameter is never consulted). -/
theorem c10_numBytes_ignored (n1 n2 : Int) (wireBuf store : List Nat) :
    receiveEvent n1 wireBuf store = receiveEvent n2 wireBuf store := rfl

/-- Claim C9: at device start, before any update is received, every one of
the 6 slots of the digit state store holds the default pattern `0b01000000`,
whose only set bit is bit 6 (segment G) — in particular bit 7 (the decimal
point) is clear — and no slot is unset. -/
theorem c9_initial_store :
    digitStates = List.replicate NUM_DIGITS 0b01000000
      ∧ ∀ k : Nat, Nat.testBit 0b01000000 k = decide (k = 6) := by
  refine ⟨rfl, fun k => ?_⟩
  rcases Nat.lt_or_ge k 7 with h | h
  · interval_cases k <;> decide
  · have h64 : (0b01000000 : Nat) < 2 ^ k :=
      lt_of_lt_of_le (by norm_num) (Nat.pow_le_pow_right (by norm_num) h)
    rw [Nat.testBit_eq_false_of_lt h64]
    symm
    simp only [decide_eq_false_iff_not]
    omega

/-- Claim C7: applying the same update pair `(i, p)` twice in succession
through the update receiver yields exactly the same store contents as
applying it once, for every index `i` and pattern `p`. -/
theorem c7_idempotent (numBytes : Int) (i p : Nat) (store : List Nat) :
    receiveEvent numBytes [i, p, i, p] store = receiveEvent numBytes [i, p] store := by
  show writeDigit (writeDigit store i p) i p = writeDigit store i p
  by_cases hi : i < 6 <;> simp [writeDigit, hi, List.set_set]

/-- Claim C3: for every index `i` outside `[0, NUM_DIGITS)` and every pattern
`p`, the update pair `(i, p)` is a no-op: the store is identical before and
after, and in particular receiving `[7, 0xFF]` leaves all slots unchanged. -/
theorem c3_out_of_range_noop (numBytes : Int) (i p : Nat) (store : List Nat)
    (h : NUM_DIGITS ≤ i) :
    receiveEvent numBytes [i, p] store = store
      ∧ receiveEvent numBytes [7, 0xFF] store = store := by
  have hi : ¬ i < 6 := by simp [NUM_DIGITS] at h; omega
  constructor
  · show writeDigit store i p = store
    simp [writeDigit, hi]
  · show writeDigit store 7 0xFF = store
    simp [writeDigit]

/-- Witness for C3 at the concrete out-of-range pair `[7, 0xFF]` of the
spec scenario, starting from the initial store. -/
theorem c3_out_of_range_noop_witness :
    receiveEvent 2 [7, 0xFF] digitStates = digitStates
      ∧ receiveEvent 2 [7, 0xFF] digitStates = digitStates :=
  c3_out_of_range_noop 2 7 0xFF digitStates (by decide)

/-- Claim C1: processing the update pair `(i, p)` through the update
receiver stores `p` at slot `i` (so `read i = p` afterwards) and leaves
every other slot `j ≠ i` unchanged. -/
theorem c1_write_then_read (numBytes : Int) (i p j : Nat) (store : List Nat)
    (hi : i < NUM_DIGITS) (hlen : store.length = 6) (hj : j ≠ i) :
    read (receiveEvent numBytes [i, p] store) i = p
      ∧ read (receiveEvent numBytes [i, p] store) j = read store j := by
  have hset : receiveEvent numBytes [i, p] store = store.set i p := by
    show writeDigit store i p = store.set i p
    simp [writeDigit, show i < 6 from hi]
  rw [hset]
  constructor
  · have hi6 : i < 6 := hi
    have : i < store.length := by omega
    simp [read, List.getD_eq_getElem?_getD, List.getElem?_set_self this]
  · simp [read, List.getD_eq_getElem?_getD, List.getElem?_set_ne (Ne.symm hj)]

/-- Witness for C1: after receiving `[0, 0x3F]` on the initial store,
slot 0 reads `0x3F` and slot 1 is unchanged. -/
theorem c1_write_then_read_witness :
    read (receiveEvent 2 [0, 0x3F] digitStates) 0 = 0x3F
      ∧ read (receiveEvent 2 [0, 0x3F] digitStates) 1 = read digitStates 1 :=
  c1_write_then_read 2 0 0x3F 1 digitStates (by decide) (by decide) (by decide)

/-- `receiveLoop` applies, via the guarded write, exactly the complete
pairs of the byte stream, in arrival order. -/
theorem receiveLoop_eq_foldl : ∀ (wireBuf : List Nat) (store : List Nat),
    receiveLoop store wireBuf
      = (toPairs wireBuf).foldl (fun s q => writeDigit s q.1 q.2) store
  | [], _ => rfl
  | [_], _ => rfl
  | a :: b :: rest, store => by
      show receiveLoop (writeDigit store a b) rest = _
      rw [receiveLoop_eq_foldl rest]
      rfl

/-- A byte stream of length `len` contains exactly `len / 2` complete pairs. -/
theorem toPairs_length : ∀ wireBuf : List Nat,
    (toPairs wireBuf).length = wireBuf.length / 2
  | [] => rfl
  | [_] => by simp [toPairs]
  | a :: b :: rest => by
      show (toPairs rest).length + 1 = _
      rw [toPairs_length rest]
      simp only [List.length_cons]
      omega

/-- A dangling final byte after an even-length stream is never consumed as
part of a pair and has no effect on the store. -/
theorem receiveLoop_dangling_byte : ∀ (wireBuf : List Nat) (store : List Nat) (x : Nat),
    wireBuf.length % 2 = 0 → receiveLoop store (wireBuf ++ [x]) = receiveLoop store wireBuf
  | [], _, _, _ => rfl
  | [_], _, _, h => by simp at h
  | a :: b :: rest, store, x, h => by
      show receiveLoop (writeDigit store a b) (rest ++ [x])
        = receiveLoop (writeDigit store a b) rest
      have h' : rest.length % 2 = 0 := by
        simp only [List.length_cons] at h
        omega
      exact receiveLoop_dangling_byte rest _ x h'

/-- Claim C2: on any inbound byte stream the receiver applies exactly
`⌊len / 2⌋` (index, pattern) pairs, in arrival order, two bytes at a time;
a final unpaired byte after the complete pairs has no effect on the store. -/
theorem c2_pairwise_consumption (numBytes : Int) (wireBuf store : List Nat) (x : Nat) :
    receiveEvent numBytes wireBuf store
        = (toPairs wireBuf).foldl (fun s q => writeDigit s q.1 q.2) store
      ∧ (toPairs wireBuf).length = wireBuf.length / 2
      ∧ (wireBuf.length % 2 = 0 →
          receiveEvent numBytes (wireBuf ++ [x]) store = receiveEvent numBytes wireBuf store) :=
  ⟨receiveLoop_eq_foldl wireBuf store, toPairs_length wireBuf,
    fun h => receiveLoop_dangling_byte wireBuf store x h⟩

/-- Witness for C2 on the odd-length stream `[0, 0x3F, 9]` from the initial
store: the single complete pair is applied and the dangling byte `9` after
the even-length stream `[0, 0x3F]` has no effect. -/
theorem c2_pairwise_consumption_witness :
    receiveEvent 3 [0, 0x3F, 9] digitStates
        = (toPairs [0, 0x3F, 9]).foldl (fun s q => writeDigit s q.1 q.2) digitStates
      ∧ (toPairs [0, 0x3F, 9]).length = 1
      ∧ receiveEvent 3 ([0, 0x3F] ++ [9]) digitStates = receiveEvent 3 [0, 0x3F] digitStates :=
  ⟨(c2_pairwise_consumption 3 [0, 0x3F, 9] digitStates 9).1,
    (c2_pairwise_consumption 3 [0, 0x3F, 9] digitStates 9).2.1,
    (c2_pairwise_consumption 3 [0, 0x3F] digitStates 9).2.2 (by decide)⟩

/-- The C truthiness test `digitStates[digit] & (1 << seg)` is exactly
bit `seg` of the stored byte. -/
theorem and_shiftLeft_eq_testBit (n s : Nat) :
    decide (n &&& 1 <<< s ≠ 0) = n.testBit s := by
  rw [Nat.one_shiftLeft, Nat.and_two_pow]
  cases h : n.testBit s <;> simp [(Nat.two_pow_pos s).ne']

/-- Claim C5: within `updateDisplay(d)`, segment line `s` (the write at
position `s + 7` of the call, after the 6 deactivations and 1 activation)
is driven from bit `s` of `read store d`, inverted when the display is
common-anode and as-is when common-cathode; the common activation (the
write at position 6) drives the addressed common with the same inversion
rule applied to "on". -/
theorem c5_segment_drive (isAnode : Bool) (store : List Nat) (d s : Nat) (hs : s < 8) :
    (updateDisplayWrites isAnode store d).getD (s + 7) (0, false)
        = (segmentPins.getD s 0,
            if isAnode then !((read store d).testBit s) else (read store d).testBit s)
      ∧ (updateDisplayWrites isAnode store d).getD 6 (0, false)
        = (commonPins.getD d 0, if isAnode then !true else true) := by
  constructor
  · show (updateDisplayWrites isAnode store d).getD (s + 7) (0, false) = _
    have hpre : (updateDisplayWrites isAnode store d).getD (s + 7) (0, false)
        = ((List.range 8).map (segWrite isAnode store d)).getD s (0, false) := by
      simp only [updateDisplayWrites, commonPins, List.map_cons, List.map_nil,
        List.cons_append, List.nil_append, List.getD_cons_succ]
    rw [hpre, List.getD_eq_getElem?_getD, List.getElem?_map, List.getElem?_range hs]
    show segWrite isAnode store d s = _
    rw [segWrite, and_shiftLeft_eq_testBit]
  · cases isAnode <;>
      simp [updateDisplayWrites, commonPins, segmentPins]

/-- Witness for C5 at the common-anode configuration of the source, digit 0
and segment 6 (segment G, lit in the default pattern `0b01000000`):
segment pin 12 is driven low (`!true`) and common pin 3 is activated low. -/
theorem c5_segment_drive_witness :
    (updateDisplayWrites IS_COMMON_ANODE digitStates 0).getD 13 (0, false) = (12, false)
      ∧ (updateDisplayWrites IS_COMMON_ANODE digitStates 0).getD 6 (0, false) = (3, false) :=
  c5_segment_drive IS_COMMON_ANODE digitStates 0 6 (by decide)

/-- Claim C6: if one full refresh cycle ran from absolute millisecond `s`
to absolute millisecond `e` (so `lastUpdateTime` holds `e` modulo 2^32) and
a later `loop()` invocation at absolute millisecond `n` starts the next
cycle, then more than the 2 ms minimum refresh period has elapsed since the
start `s` of the previous cycle. -/
theorem c6_refresh_period (s e n nowEnd : Nat) (hse : s ≤ e) (hen : e ≤ n)
    (hfire : (loopStep (e % U32) (n % U32) nowEnd).1 = true) :
    2 < n - s := by
  simp only [loopStep] at hfire
  split at hfire
  · rename_i hc
    simp only [usub32, U32] at hc
    omega
  · exact absurd hfire (by simp)

/-- Witness for C6: the previous cycle ran at milliseconds 10..10 and the
check at millisecond 13 starts the next cycle, more than 2 ms after 10. -/
theorem c6_refresh_period_witness :
    (loopStep (10 % U32) (13 % U32) 13).1 = true ∧ 2 < 13 - 10 :=
  ⟨by decide, c6_refresh_period 10 10 13 13 (by decide) (by decide) (by decide)⟩

/-- Claim C8: on a 6-slot store, every array access the scan driver
performs during a full refresh cycle — `commonPins[i]` for the deactivation
loop, `commonPins[digit]`, `digitStates[digit]` and `segmentPins[seg]`, for
the digits `0..5` that `loop()` iterates — is in bounds: the fully
bounds-checked cycle never fails and produces exactly the unchecked one. -/
theorem c8_scan_in_bounds (isAnode : Bool) (store : List Nat) (hlen : store.length = 6) :
    cycleChecked isAnode store = some (cycleWrites isAnode store) := by
  rcases store with _ | ⟨x0, _ | ⟨x1, _ | ⟨x2, _ | ⟨x3, _ | ⟨x4, _ | ⟨x5, _ | ⟨x6, t⟩⟩⟩⟩⟩⟩⟩ <;>
    first
      | rfl
      | simp at hlen

/-- Witness for C8 at the initial store. -/
theorem c8_scan_in_bounds_witness :
    cycleChecked IS_COMMON_ANODE digitStates = some (cycleWrites IS_COMMON_ANODE digitStates) :=
  c8_scan_in_bounds IS_COMMON_ANODE digitStates rfl

/-- Applying a write sequence is folding `digitalWrite` over it. -/
theorem applyWrites_append (ps : PinState) (w1 w2 : List (Nat × Bool)) :
    applyWrites ps (w1 ++ w2) = applyWrites (applyWrites ps w1) w2 := by
  simp [applyWrites]

/-- Writing the "off" level (`IS_COMMON_ANODE`) to any pin never increases
the number of active commons. -/
theorem countCommonActive_off_write (isAnode : Bool) (ps : PinState) (p : Nat) :
    countCommonActive isAnode (digitalWrite ps p isAnode) ≤ countCommonActive isAnode ps := by
  apply List.countP_mono_left
  intro q hq h
  by_cases hqp : q = p
  · subst hqp
    exfalso
    have hval : digitalWrite ps q isAnode q = isAnode := by simp [digitalWrite]
    rw [hval] at h
    cases isAnode <;> simp at h
  · have hval : digitalWrite ps p isAnode q = ps q := by simp [digitalWrite, hqp]
    rwa [hval] at h

/-- After the deactivation loop of `updateDisplay` — the "off" level written
to every common pin — no common is active, whatever the entry state. -/
theorem countCommonActive_all_off (isAnode : Bool) (ps : PinState) :
    countCommonActive isAnode
      (applyWrites ps (commonPins.map (fun p => (p, isAnode)))) = 0 := by
  cases isAnode <;> rfl

/-- A predicate count over a list containing `p` at most once changes by at
most one when the predicate is modified only at `p`. -/
theorem countP_update_le {l : List Nat} {f g : Nat → Bool} {p : Nat}
    (hagree : ∀ q, q ≠ p → f q = g q) (hcount : l.count p ≤ 1) :
    l.countP f ≤ l.countP g + 1 := by
  induction l with
  | nil => simp
  | cons a t ih =>
      rw [List.countP_cons, List.countP_cons]
      by_cases hap : a = p
      · subst hap
        have hnot : a ∉ t := by
          rw [List.count_cons_self] at hcount
          have h0 : t.count a = 0 := by omega
          exact List.count_eq_zero.mp h0
        have heq : t.countP f = t.countP g := by
          apply List.countP_congr
          intro x hx
          have hxp : x ≠ a := fun hh => hnot (hh ▸ hx)
          rw [hagree x hxp]
        rw [heq]
        by_cases hfa : f a <;> by_cases hga : g a <;> simp [hfa, hga] <;> omega
      · have hfg : f a = g a := hagree a hap
        have hc : t.count p ≤ 1 :=
          le_trans (List.count_le_count_cons p a t) hcount
        have hrec := ih hc
        rw [hfg]
        omega

/-- One `digitalWrite` activates at most one additional common (the common
pins are pairwise distinct). -/
theorem countCommonActive_write_le_succ (isAnode : Bool) (ps : PinState) (p : Nat) (v : Bool) :
    countCommonActive isAnode (digitalWrite ps p v) ≤ countCommonActive isAnode ps + 1 := by
  apply countP_update_le (p := p)
  · intro q hq
    simp [digitalWrite, hq]
  · exact List.nodup_iff_count_le_one.mp (by decide) p

/-- A write to a pin that is not a common pin leaves the number of active
commons unchanged. -/
theorem countCommonActive_other_write (isAnode : Bool) (ps : PinState) (p : Nat) (v : Bool)
    (hp : p ∉ commonPins) :
    countCommonActive isAnode (digitalWrite ps p v) = countCommonActive isAnode ps := by
  apply List.countP_congr
  intro q hq
  have hqp : q ≠ p := fun h => hp (h ▸ hq)
  simp [digitalWrite, hqp]

/-- A run of "off"-level writes never increases the number of active commons. -/
theorem countCommonActive_offList (isAnode : Bool) :
    ∀ (ws : List (Nat × Bool)) (ps : PinState), (∀ w ∈ ws, w.2 = isAnode) →
      countCommonActive isAnode (applyWrites ps ws) ≤ countCommonActive isAnode ps
  | [], _, _ => le_refl _
  | w :: t, ps, h => by
      have h2 : w.2 = isAnode := h w (List.mem_cons_self w t)
      show countCommonActive isAnode (applyWrites (digitalWrite ps w.1 w.2) t)
        ≤ countCommonActive isAnode ps
      rw [h2]
      exact le_trans
        (countCommonActive_offList isAnode t _ (fun x hx => h x (List.mem_cons_of_mem w hx)))
        (countCommonActive_off_write isAnode ps w.1)

/-- A run of writes to non-common pins (the segment writes) leaves the
number of active commons unchanged. -/
theorem countCommonActive_segList (isAnode : Bool) :
    ∀ (ws : List (Nat × Bool)) (ps : PinState), (∀ w ∈ ws, w.1 ∉ commonPins) →
      countCommonActive isAnode (applyWrites ps ws) = countCommonActive isAnode ps
  | [], _, _ => rfl
  | w :: t, ps, h => by
      show countCommonActive isAnode (applyWrites (digitalWrite ps w.1 w.2) t)
        = countCommonActive isAnode ps
      rw [countCommonActive_segList isAnode t _ (fun x hx => h x (List.mem_cons_of_mem w hx)),
        countCommonActive_other_write isAnode ps w.1 w.2 (h w (List.mem_cons_self w t))]

/-- Boundedness composes over concatenated write sequences. -/
theorem statesBounded_append (isAnode : Bool) (ps : PinState) (w1 w2 : List (Nat × Bool))
    (h1 : StatesBounded isAnode ps w1) (h2 : StatesBounded isAnode (applyWrites ps w1) w2) :
    StatesBounded isAnode ps (w1 ++ w2) := by
  intro k
  rw [List.take_append_eq_append_take, applyWrites_append]
  by_cases hk : k ≤ w1.length
  · have h0 : w2.take (k - w1.length) = [] := by
      rw [Nat.sub_eq_zero_of_le hk, List.take_zero]
    rw [h0]
    exact h1 k
  · have hall : w1.take k = w1 := List.take_of_length_le (by omega)
    rw [hall]
    exact h2 (k - w1.length)

/-- The deactivation loop keeps the count bounded at every step. -/
theorem statesBounded_offList (isAnode : Bool) (ps : PinState) (ws : List (Nat × Bool))
    (hws : ∀ w ∈ ws, w.2 = isAnode) (hps : countCommonActive isAnode ps ≤ 1) :
    StatesBounded isAnode ps ws := fun k =>
  le_trans
    (countCommonActive_offList isAnode (ws.take k) ps
      (fun w hw => hws w (List.take_subset k ws hw)))
    hps

/-- The single activation write, from a state with no active common, keeps
the count bounded at every step. -/
theorem statesBounded_single (isAnode : Bool) (ps : PinState) (p : Nat) (v : Bool)
    (hps : countCommonActive isAnode ps = 0) : StatesBounded isAnode ps [(p, v)] := by
  intro k
  cases k with
  | zero =>
      show countCommonActive isAnode ps ≤ 1
      omega
  | succ k =>
      have htake : ([(p, v)] : List (Nat × Bool)).take (k + 1) = [(p, v)] := by
        simp
      rw [htake]
      have hle := countCommonActive_write_le_succ isAnode ps p v
      show countCommonActive isAnode (digitalWrite ps p v) ≤ 1
      omega

/-- The segment writes keep the count bounded at every step. -/
theorem statesBounded_segList (isAnode : Bool) (ps : PinState) (ws : List (Nat × Bool))
    (hws : ∀ w ∈ ws, w.1 ∉ commonPins) (hps : countCommonActive isAnode ps ≤ 1) :
    StatesBounded isAnode ps ws := by
  intro k
  rw [countCommonActive_segList isAnode (ws.take k) ps
    (fun w hw => hws w (List.take_subset k ws hw))]
  exact hps

/-- Every pin the segment loop of `updateDisplay` writes is a segment pin,
never a common pin. -/
theorem segWrites_not_common (isAnode : Bool) (store : List Nat) (d : Nat) :
    ∀ w ∈ (List.range 8).map (segWrite isAnode store d), w.1 ∉ commonPins := by
  intro w hw
  simp only [List.mem_map, List.mem_range] at hw
  obtain ⟨s, hs, rfl⟩ := hw
  show segmentPins.getD s 0 ∉ commonPins
  interval_cases s <;> decide

/-- Every write of the deactivation loop writes the "off" level. -/
theorem offWrites_are_off (isAnode : Bool) :
    ∀ w ∈ commonPins.map (fun p => (p, isAnode)), w.2 = isAnode := by
  intro w hw
  simp only [List.mem_map] at hw
  obtain ⟨p, _, rfl⟩ := hw
  rfl

/-- During one `updateDisplay` call entered with at most one active common,
every intermediate pin state has at most one active common. -/
theorem statesBounded_updateDisplay (isAnode : Bool) (store : List Nat) (d : Nat)
    (ps : PinState) (hps : countCommonActive isAnode ps ≤ 1) :
    StatesBounded isAnode ps (updateDisplayWrites isAnode store d) := by
  apply statesBounded_append
  · apply statesBounded_append
    · exact statesBounded_offList isAnode ps _ (offWrites_are_off isAnode) hps
    · exact statesBounded_single isAnode _ _ _ (countCommonActive_all_off isAnode ps)
  · apply statesBounded_segList
    · exact segWrites_not_common isAnode store d
    · rw [applyWrites_append]
      have h0 := countCommonActive_all_off isAnode ps
      have hle := countCommonActive_write_le_succ isAnode
        (applyWrites ps (commonPins.map (fun p => (p, isAnode))))
        (commonPins.getD d 0) (!isAnode)
      show countCommonActive isAnode
        (digitalWrite (applyWrites ps (commonPins.map (fun p => (p, isAnode))))
          (commonPins.getD d 0) (!isAnode)) ≤ 1
      omega

/-- After a full `updateDisplay` call, at most one common is active,
whatever the entry state. -/
theorem updateDisplay_final_le_one (isAnode : Bool) (store : List Nat) (d : Nat)
    (ps : PinState) :
    countCommonActive isAnode (applyWrites ps (updateDisplayWrites isAnode store d)) ≤ 1 := by
  show countCommonActive isAnode
    (applyWrites ps ((commonPins.map (fun p => (p, isAnode))
      ++ [(commonPins.getD d 0, !isAnode)])
      ++ (List.range 8).map (segWrite isAnode store d))) ≤ 1
  rw [applyWrites_append,
    countCommonActive_segList isAnode _ _ (segWrites_not_common isAnode store d),
    applyWrites_append]
  have h0 := countCommonActive_all_off isAnode ps
  have hle := countCommonActive_write_le_succ isAnode
    (applyWrites ps (commonPins.map (fun p => (p, isAnode))))
    (commonPins.getD d 0) (!isAnode)
  show countCommonActive isAnode
    (digitalWrite (applyWrites ps (commonPins.map (fun p => (p, isAnode))))
      (commonPins.getD d 0) (!isAnode)) ≤ 1
  omega

/-- Chaining `updateDisplay` calls over any digit list preserves
boundedness of every intermediate state. -/
theorem statesBounded_flatMap (isAnode : Bool) (store : List Nat) :
    ∀ (ds : List Nat) (ps : PinState), countCommonActive isAnode ps ≤ 1 →
      StatesBounded isAnode ps (ds.flatMap (updateDisplayWrites isAnode store))
  | [], ps, hps => by
      intro k
      have h0 : (([] : List Nat).flatMap (updateDisplayWrites isAnode store)).take k = [] := by
        simp
      rw [h0]
      exact hps
  | d :: ds, ps, hps => by
      rw [List.flatMap_cons]
      exact statesBounded_append isAnode ps _ _
        (statesBounded_updateDisplay isAnode store d ps hps)
        (statesBounded_flatMap isAnode store ds _
          (updateDisplay_final_le_one isAnode store d ps))

/-- Steady-state scan invariant: a refresh cycle entered with at most one
active common — which holds for every cycle after the first, since each
`updateDisplay` leaves at most one common active — keeps at most one common
active at every instant (after every prefix of its writes). -/
theorem scan_cycle_at_most_one_active (isAnode : Bool) (store : List Nat) (ps : PinState)
    (hps : countCommonActive isAnode ps ≤ 1) (k : Nat) :
    countCommonActive isAnode (applyWrites ps ((cycleWrites isAnode store).take k)) ≤ 1 :=
  statesBounded_flatMap isAnode store (List.range NUM_DIGITS) ps hps k

/-- Claim C4 fails on the code: `setup()` leaves every common pin at
`!IS_COMMON_ANODE`, which is precisely the level `updateDisplay` uses to
turn a digit on (its own "off" level is `IS_COMMON_ANODE`), so the first
refresh cycle begins with all 6 commons at the active level, and after the
first deactivation write of `updateDisplay(0)` five commons are still
active — the "at most one active at every instant of a refresh cycle"
invariant is violated. Only after a full `updateDisplay` call does the
count drop to exactly one. -/
theorem c4_first_cycle_ghosting :
    countCommonActive IS_COMMON_ANODE
        (applyWrites (fun _ => false) (setupWrites IS_COMMON_ANODE)) = 6
      ∧ countCommonActive IS_COMMON_ANODE
          (applyWrites (applyWrites (fun _ => false) (setupWrites IS_COMMON_ANODE))
            ((cycleWrites IS_COMMON_ANODE digitStates).take 1)) = 5
      ∧ countCommonActive IS_COMMON_ANODE
          (applyWrites (applyWrites (fun _ => false) (setupWrites IS_COMMON_ANODE))
            ((cycleWrites IS_COMMON_ANODE digitStates).take 15)) = 1 := by
  exact ⟨by decide, by decide, by decide⟩

end Megaplexer
